import Mathlib

/-!
Verification of the fan2fanBot offer-notification pipeline (src/main.py).

The development shallowly embeds the parts of `check_api_for_event`,
`load_seen_offers` and `save_seen_offers` that the specification talks
about: the decoded JSON payload, the price filter, the seen-offer
deduplication, seat/sector extraction, image selection, and the
per-recipient delivery loop.  Machine-level concerns (HTTP, logging,
sleeps) are outside the embedded state; delivery outcomes are an oracle
`deliver : recipient -> message -> Bool`, and the image directory is the
list of file names it contains.
-/

namespace Fan2Fan

/-- Value found under the `total` key of an offer's `price` dict:
either a number (int/float, embedded as a rational) or some other
JSON value (`isinstance` check fails in the source). -/
inductive TotalVal where
  | num (q : ℚ)
  | nonNum
deriving DecidableEq

/-- The offer's `price` dict: `total` is an optional field.  A `price`
value that is falsy or has no `total` key is embedded as
`total = none`. -/
structure PriceInfo where
  total : Option TotalVal
deriving DecidableEq

/-- One element of the decoded `offers` array.  `id` is `offer.get('id')`
(absent embedded as `none`); `offerTypeDescription` defaults to `"N/A"`
at use sites as in the source. -/
structure Offer where
  id : Option String
  offerTypeDescription : Option String
  price : Option PriceInfo
deriving DecidableEq

/-- Value of one row entry inside a place: the seat list when it is a
JSON list of strings, `notList` otherwise. -/
inductive SeatsVal where
  | seats (l : List String)
  | notList
deriving DecidableEq

/-- Value of one place entry: the ordered row dict when it is a JSON
dict, `notDict` otherwise (the source checks `isinstance(row_data, dict)`). -/
inductive RowsVal where
  | rows (l : List (String × SeatsVal))
  | notDict
deriving DecidableEq

/-- One element of the decoded `groups` array: `offerIds` plus the
ordered `places` dict (Python dicts preserve insertion order). -/
structure Group where
  offerIds : List String
  places : List (String × RowsVal)
deriving DecidableEq

/-- The decoded JSON payload: `groups` and `offers` are optional
top-level keys (`data.get`); a missing or non-list value is `none`. -/
structure Data where
  groups : Option (List Group)
  offers : Option (List Offer)
deriving DecidableEq

/-- EMPTY_RESPONSE from the source: the fixed baseline value
with empty `groups` and `offers` arrays. -/
def emptyResponse : Data := ⟨some [], some []⟩

/-- MAX_PRICE_THRESHOLD = 250.00 from the source configuration. -/
def maxPriceThreshold : ℚ := 250

/-- Lower-case a string character-wise (Python `str.lower`, ASCII part). -/
def lowerStr (s : String) : String := String.mk (s.data.map Char.toLower)

/-- Helper for substring search: does `n` occur in the given character list. -/
def substrAux (n : List Char) : List Char → Bool
  | [] => n.isEmpty
  | c :: cs => n.isPrefixOf (c :: cs) || substrAux n cs

/-- Python `needle in hay` substring test for strings. -/
def containsSub (needle hay : String) : Bool := substrAux needle.data hay.data

/-- Whitespace characters removed by Python `str.strip()`. -/
def isSpaceChar (c : Char) : Bool :=
  c = ' ' || c = '\t' || c = '\n' || c = '\r' || c = '\x0b' || c = '\x0c'

/-- Python `str.strip()` on a character list. -/
def stripChars (l : List Char) : List Char :=
  ((l.dropWhile isSpaceChar).reverse.dropWhile isSpaceChar).reverse

/-- Leftmost match of the regex `\d X*` where `X` is the character class
`allowed`: scan to the first digit, then take the greedy run of allowed
characters after it (re.search is leftmost, `*` is greedy). -/
def firstDigitRun (allowed : Char → Bool) : List Char → Option (List Char)
  | [] => none
  | c :: cs => if c.isDigit then some (c :: cs.takeWhile allowed) else firstDigitRun allowed cs

/-- Character class `[\d\w-]` of the source's sector regex: Python `\w`
is alphanumeric or underscore (ASCII part). -/
def wordDashChar (c : Char) : Bool := c.isAlphanum || c = '_' || c = '-'

/-- Sector derivation from a place key, from the source line
`match = re.search(r'\d[\d\w-]*', place_key)` with fallback to the whole
key when there is no match. -/
def sectorOf (key : String) : String :=
  match firstDigitRun wordDashChar key.data with
  | some run => String.mk run
  | none => key

/-- Python `", ".join(seat_list)`. -/
def joinComma : List String → String
  | [] => ""
  | [s] => s
  | s :: t :: rest => s ++ ", " ++ joinComma (t :: rest)

/-- FILA / ASIENTO lines built from the first row entry of a place
(the source breaks after the first row). -/
def rowLines : RowsVal → List String
  | RowsVal.rows [] => []
  | RowsVal.rows ((rk, sv) :: _) =>
      ("FILA: " ++ rk) ::
        (match sv with
          | SeatsVal.seats [] => []
          | SeatsVal.seats (s :: rest) => ["ASIENTO: " ++ joinComma (s :: rest)]
          | SeatsVal.notList => [])
  | RowsVal.notDict => []

/-- SECTOR / FILA / ASIENTO lines built from the first place entry of a
group's `places` dict (the source breaks after the first place; an empty
`places` dict is falsy and contributes nothing). -/
def placeLines : List (String × RowsVal) → List String
  | [] => []
  | (pk, rv) :: _ => ("SECTOR: " ++ sectorOf pk) :: rowLines rv

/-- Scan of the `groups` array: the first group whose `offerIds`
contains the offer id wins and the loop breaks. -/
def seatLinesAux (id : String) : List Group → List String
  | [] => []
  | g :: gs => if id ∈ g.offerIds then placeLines g.places else seatLinesAux id gs

/-- Seat-information lines for one offer, from the source's
`--- Extract Seat Information ---` block; a falsy offer id skips
extraction entirely (`if offer_id_to_match:`). -/
def seatLinesFor (oid : Option String) (groups : List Group) : List String :=
  match oid with
  | none => []
  | some id => if id = "" then [] else seatLinesAux id groups

/-- Python `str.startswith` on strings. -/
def startsWithStr (p s : String) : Bool := p.data.isPrefixOf s.data

/-- Characters after the first colon: `line.split(":", 1)[1]`. -/
def afterFirstColon (l : List Char) : List Char :=
  (l.dropWhile (fun c => c != ':')).drop 1

/-- Decimal value of a digit run (Python `int(...)` on a digit string). -/
def parseDigits (l : List Char) : Nat :=
  l.foldl (fun n c => n * 10 + (c.toNat - 48)) 0

/-- Sector value recovered for the image lookup, from the source's scan
of `seat_info_lines`: take a line starting with `SECTOR:`, strip the part
after the colon, and read the first `\d+` run; on failure move to the
next line. -/
def extractSectorNum : List String → Option Nat
  | [] => none
  | line :: rest =>
      if startsWithStr "SECTOR:" line then
        match firstDigitRun Char.isDigit (stripChars (afterFirstColon line.data)) with
        | some ds => some (parseDigits ds)
        | none => extractSectorNum rest
      else extractSectorNum rest

/-- Python `l.take (l.length - n)`: drop the last `n` characters
(`filename[:-4]`). -/
def dropLastN (l : List Char) (n : Nat) : List Char := l.take (l.length - n)

/-- Test `filename.lower().endswith(".jpg")` from the source. -/
def lowerEndsJpg (f : String) : Bool := ".jpg".data.isSuffixOf (lowerStr f).data

/-- Numeric stem recovered by the source's directory scan: the file name
lower-cases to a `.jpg` suffix and the remaining stem `filename[:-4]`
is a non-empty digit string (`base_name.isdigit()`). -/
def digitJpgStem (f : String) : Option Nat :=
  if lowerEndsJpg f then
    let base := dropLastN f.data 4
    if !base.isEmpty && base.all Char.isDigit then some (parseDigits base) else none
  else none

/-- Sector-threshold image lookup from the source: collect the numeric
stems of `.jpg` files that are `<=` the sector value, take the maximum,
and use `<max>.jpg` only if a file of exactly that name exists. -/
def sectorImage (files : List String) (sv : Nat) : Option String :=
  match files.filterMap (fun f =>
    match digitJpgStem f with
    | some m => if m ≤ sv then some m else none
    | none => none) with
  | [] => none
  | c :: cs =>
      if (toString ((c :: cs).foldl Nat.max 0) ++ ".jpg") ∈ files then
        some (toString ((c :: cs).foldl Nat.max 0) ++ ".jpg")
      else none

/-- Image selection from the source's `--- Determine Image to Send ---`
block: a pista/floor description selects `pista.jpg` when present, a
gold/golden description selects `golden.jpg` when present; whenever no
image has been selected yet and seat lines exist, the sector-threshold
lookup runs.  File names stand for paths inside SOURCES_DIR. -/
def imageFor (files : List String) (desc : String) (seatLines : List String) : Option String :=
  let dl := lowerStr desc
  let fromType : Option String :=
    if containsSub "pista" dl || containsSub "floor" dl then
      (if "pista.jpg" ∈ files then some "pista.jpg" else none)
    else if containsSub "gold" dl || containsSub "golden" dl then
      (if "golden.jpg" ∈ files then some "golden.jpg" else none)
    else none
  match fromType with
  | some p => some p
  | none =>
      if seatLines.isEmpty then none
      else
        match extractSectorNum seatLines with
        | some n => sectorImage files n
        | none => none

/-- Price admission from the source: the offer needs a truthy `price`
dict with a `total` key holding an int/float; the display price is
`total / 100` and the offer is admitted exactly when it is strictly
below MAX_PRICE_THRESHOLD.  Returns the display price on admission. -/
def priceCheck (o : Offer) : Option ℚ :=
  match o.price with
  | none => none
  | some p =>
      match p.total with
      | some (TotalVal.num q) => if q / 100 < maxPriceThreshold then some (q / 100) else none
      | some TotalVal.nonNum => none
      | none => none

/-- The formatted notification for one offer: offer type, event date,
display price, seat lines and the selected image, the data the message
body is built from. -/
structure Notification where
  offerType : String
  eventDate : String
  priceVal : ℚ
  seatLines : List String
  image : Option String
deriving DecidableEq

/-- Static surroundings of one poll: configured chat ids, the delivery
outcome oracle for the external Telegram channel, the image directory
listing, and the event's date label. -/
structure Env where
  chats : List String
  deliver : String → Notification → Bool
  files : List String
  eventDate : String

/-- Python truthiness of the optional offer id (`if current_offer_id`). -/
def idTruthy : Option String → Bool
  | none => false
  | some s => s != ""

/-- Seen-offer skip test from the source:
`if current_offer_id and current_offer_id in seen_offer_ids`. -/
def seenSkip (oid : Option String) (store : Finset String) : Bool :=
  match oid with
  | none => false
  | some s => if s = "" then false else decide (s ∈ store)

/-- Store update on successful announcement:
`seen_offer_ids.add(current_offer_id)` for a truthy id. -/
def insertId (oid : Option String) (store : Finset String) : Finset String :=
  match oid with
  | some s => insert s store
  | none => store

/-- Observable outcome of processing one offer: the notification if one
was dispatched, the per-recipient delivery results, the seen store
afterwards, and whether `save_seen_offers` was invoked. -/
structure StepResult where
  notified : Option Notification
  deliveries : List Bool
  store : Finset String
  persisted : Bool

/-- The notification built for an admitted offer with display price `v`:
seat extraction (`seat_info_lines`), the defaulted type description, and
image selection feed the message body. -/
def notifFor (env : Env) (groups : List Group) (o : Offer) (v : ℚ) : Notification :=
  let lines := seatLinesFor o.id groups
  let desc := o.offerTypeDescription.getD "N/A"
  ⟨desc, env.eventDate, v, lines, imageFor env.files desc lines⟩

/-- The source's `any_message_sent_successfully` loop: start at `False`,
send to every chat id in order, flip to `True` on each success. -/
def aggFor (env : Env) (n : Notification) : Bool :=
  env.chats.foldl (fun acc c => if env.deliver c n then true else acc) false

/-- Per-recipient delivery results, in chat-id order (one
`send_telegram_message_to_single_chat` call per configured chat id). -/
def deliveriesFor (env : Env) (n : Notification) : List Bool :=
  env.chats.map (fun c => env.deliver c n)

/-- Processing of a single offer inside the source's
`for i, offer in enumerate(offers_data)` loop body: price filter, seen
check, seat extraction, image selection, delivery to every configured
chat id, and the conditional `seen_offer_ids.add` plus
`save_seen_offers` (only when the aggregate flag is set and the id is
truthy). -/
def processOffer (env : Env) (groups : List Group) (store : Finset String) (o : Offer) :
    StepResult :=
  match priceCheck o with
  | none => ⟨none, [], store, false⟩
  | some v =>
      if seenSkip o.id store then ⟨none, [], store, false⟩
      else
        let notif := notifFor env groups o v
        if aggFor env notif && idTruthy o.id then
          ⟨some notif, deliveriesFor env notif, insertId o.id store, true⟩
        else
          ⟨some notif, deliveriesFor env notif, store, false⟩

/-- Processing of the whole `offers` array in order, threading the seen
store; the result list is aligned with the offer list, `none` marking an
offer that produced no notification. -/
def processOffers (env : Env) (groups : List Group) :
    Finset String → List Offer → List (Option Notification) × Finset String
  | store, [] => ([], store)
  | store, o :: os =>
      let r := processOffer env groups store o
      let rest := processOffers env groups r.store os
      (r.notified :: rest.1, rest.2)

/-- Processing of one decoded payload, from the source's
`if data != EMPTY_RESPONSE:` down to the offer loop: the baseline-empty
payload and a missing, non-list or empty `offers` array produce nothing. -/
def processData (env : Env) (d : Data) (store : Finset String) :
    List (Option Notification) × Finset String :=
  if d = emptyResponse then ([], store)
  else
    match d.offers with
    | some (o :: os) => processOffers env (d.groups.getD []) store (o :: os)
    | _ => ([], store)

/-- SeenOfferStore backing file as observed by `load_seen_offers`:
absent, unreadable/udecodable, decodable but not a list, or a list of
id strings. -/
inductive SeenFile where
  | missing
  | invalid
  | notList
  | idList (ids : List String)

/-- Embedding of `load_seen_offers`: a missing file, a decode error or a
non-list payload all yield the empty set; a well-formed list populates
the in-memory set. -/
def load_seen_offers : SeenFile → Finset String
  | SeenFile.missing => ∅
  | SeenFile.invalid => ∅
  | SeenFile.notList => ∅
  | SeenFile.idList l => l.toFinset

/-- Embedding of `save_seen_offers`: the file is rewritten with
`list(seen_offer_ids)`, a list enumerating the in-memory set (Python's
enumeration order is arbitrary; the embedding uses the sorted one). -/
def save_seen_offers (s : Finset String) : SeenFile :=
  SeenFile.idList (s.sort (fun a b => a ≤ b))

/-- Spec-worded sector derivation: drop everything before the first
digit of the key; the sector is that digit followed by the run of
`allowed` characters after it, and the whole key is used when no digit
occurs. -/
def specSectorRun (allowed : Char → Bool) (key : String) : String :=
  match key.data.dropWhile (fun c => !c.isDigit) with
  | [] => key
  | d :: tl => String.mk (d :: tl.takeWhile allowed)

/-- Character class `[0-9A-Za-z-]` spelled out in the claim's regex
(no underscore). -/
def alnumDashChar (c : Char) : Bool := c.isAlphanum || c = '-'

/-- Sector derivation exactly as the claim words it: the first run
matching `[0-9][0-9A-Za-z-]*`, falling back to the whole key. -/
def claimSector (key : String) : String := specSectorRun alnumDashChar key

/-- Spec-worded seats rendering: the comma-joined seat list when it is
non-empty. -/
def specSeatEntry : SeatsVal → List String
  | SeatsVal.seats l => if l.isEmpty then [] else ["ASIENTO: " ++ joinComma l]
  | SeatsVal.notList => []

/-- Spec-worded row rendering: only the first row entry is used. -/
def specRowLines : RowsVal → List String
  | RowsVal.rows l =>
      match l.head? with
      | none => []
      | some (rk, sv) => ("FILA: " ++ rk) :: specSeatEntry sv
  | RowsVal.notDict => []

/-- Seat extraction as the (amended) claim words it: the first group in
array order whose `offerIds` contains the offer id, its first place
entry and first row entry, with the sector derived by the first-digit-run
rule over word characters and dash. -/
def specSeatLines (id : String) (groups : List Group) : List String :=
  match groups.find? (fun g => g.offerIds.contains id) with
  | none => []
  | some g =>
      match g.places.head? with
      | none => []
      | some (pk, rv) => ("SECTOR: " ++ specSectorRun wordDashChar pk) :: specRowLines rv

/-- Canonically named sector image file as the claim words it: a file
literally named `<integer>.jpg`, i.e. the decimal representation of its
value (no leading zeros) followed by exactly `.jpg`. -/
def canonicalJpgNum (f : String) : Option Nat :=
  if String.mk (dropLastN f.data 4) ++ ".jpg" = f ∧ dropLastN f.data 4 ≠ []
      ∧ (dropLastN f.data 4).all Char.isDigit = true
      ∧ String.mk (dropLastN f.data 4) = toString (parseDigits (dropLastN f.data 4)) then
    some (parseDigits (dropLastN f.data 4))
  else none

/-- Sector-threshold selection exactly as the claim words it: among the
files named `<integer>.jpg` whose integer is `<=` the sector value, pick
the one with the largest integer; none qualifying means no image. -/
def claimSectorSelect (files : List String) (sv : Nat) : Option String :=
  match (files.filterMap canonicalJpgNum).filter (fun m => m ≤ sv) with
  | [] => none
  | c :: cs => some (toString ((c :: cs).foldl Nat.max 0) ++ ".jpg")

/-- C4: for any decoded payload structurally equal to the BaselineEmpty
value, the pipeline produces zero notifications and leaves the
seen-offer store unchanged. -/
theorem C4_baseline_empty (env : Env) (store : Finset String) :
    processData env emptyResponse store = ([], store) := by
  simp [processData]

/-- C8: SeenOfferStore round-trip: persisting any in-memory id set and
re-loading it yields exactly the same set, and a missing, corrupt, or
non-list file loads as the empty set rather than an error. -/
theorem C8_store_roundtrip (s : Finset String) :
    load_seen_offers (save_seen_offers s) = s
      ∧ load_seen_offers SeenFile.missing = ∅
      ∧ load_seen_offers SeenFile.invalid = ∅
      ∧ load_seen_offers SeenFile.notList = ∅ := by
  refine ⟨?_, rfl, rfl, rfl⟩
  simp [load_seen_offers, save_seen_offers]

/-- The success-flag loop computes the disjunction of the delivery
outcomes. -/
theorem foldl_or_any (f : String → Bool) :
    ∀ (l : List String) (acc : Bool),
      l.foldl (fun a c => if f c then true else a) acc = (acc || l.any f)
  | [], acc => by simp
  | c :: cs, acc => by
      rw [List.foldl_cons, foldl_or_any f cs, List.any_cons]
      cases h : f c <;> simp [h, Bool.or_assoc]

/-- The aggregate announcement flag equals the OR over recipients. -/
theorem aggFor_eq_any (env : Env) (n : Notification) :
    aggFor env n = env.chats.any (fun c => env.deliver c n) := by
  unfold aggFor
  rw [foldl_or_any (fun c => env.deliver c n) env.chats false]
  simp

theorem map_any_id (f : String → Bool) :
    ∀ l : List String, ((l.map f).any fun b => b) = l.any f
  | [] => rfl
  | c :: cs => by rw [List.map_cons, List.any_cons, List.any_cons, map_any_id f cs]

/-- The OR of the per-recipient delivery results equals the OR over
recipients. -/
theorem deliveries_any (env : Env) (n : Notification) :
    (deliveriesFor env n).any (fun b => b) = env.chats.any (fun c => env.deliver c n) := by
  unfold deliveriesFor
  rw [map_any_id]

/-- C1 counterexample to the claim as stated over every processed offer:
an offer whose `id` field is missing, and likewise one carrying the
falsy id `""`, has its only delivery succeed and still nothing is added
to the seen store and nothing is persisted (line 304's truthy-id guard),
so "added and persisted iff at least one delivery succeeded" fails. -/
theorem C1_counterexample :
    ((processOffer ⟨["c"], fun _ _ => true, [], "d"⟩ [] ∅
        ⟨none, some "General", some ⟨some (TotalVal.num 15000)⟩⟩).deliveries.any
          (fun b => b) = true
      ∧ (processOffer ⟨["c"], fun _ _ => true, [], "d"⟩ [] ∅
          ⟨none, some "General", some ⟨some (TotalVal.num 15000)⟩⟩).persisted = false
      ∧ (processOffer ⟨["c"], fun _ _ => true, [], "d"⟩ [] ∅
          ⟨none, some "General", some ⟨some (TotalVal.num 15000)⟩⟩).store = ∅)
    ∧ ((processOffer ⟨["c"], fun _ _ => true, [], "d"⟩ [] ∅
        ⟨some "", some "General", some ⟨some (TotalVal.num 15000)⟩⟩).deliveries.any
          (fun b => b) = true
      ∧ (processOffer ⟨["c"], fun _ _ => true, [], "d"⟩ [] ∅
          ⟨some "", some "General", some ⟨some (TotalVal.num 15000)⟩⟩).persisted = false
      ∧ (processOffer ⟨["c"], fun _ _ => true, [], "d"⟩ [] ∅
          ⟨some "", some "General", some ⟨some (TotalVal.num 15000)⟩⟩).store = ∅) := by
  norm_num [processOffer, priceCheck, maxPriceThreshold, seenSkip, insertId, idTruthy,
    notifFor, aggFor, deliveriesFor]

/-- C1 (amended): for every offer carrying a truthy (non-empty) id
processed in a cycle, the offer's id is added to the seen store and the
store persisted if and only if at least one recipient delivery for that
offer succeeded; the aggregate announcement result (which gates the add)
is the logical OR of the per-recipient delivery results.  An offer with
a missing or empty id is never added even on success. -/
theorem C1_seen_iff_delivered (env : Env) (groups : List Group) (store : Finset String)
    (o : Offer) (s : String) (hid : o.id = some s) (hs : s ≠ "") :
    ((processOffer env groups store o).persisted = true
        ↔ (processOffer env groups store o).deliveries.any (fun b => b) = true)
      ∧ ((processOffer env groups store o).persisted = true →
          (processOffer env groups store o).store = insert s store)
      ∧ ((processOffer env groups store o).persisted = false →
          (processOffer env groups store o).store = store) := by
  obtain ⟨oid, odesc, oprice⟩ := o
  obtain rfl : oid = some s := hid
  have hidt : idTruthy (some s) = true := by simpa [idTruthy] using hs
  set o : Offer := ⟨some s, odesc, oprice⟩ with ho
  cases hpc : priceCheck o with
  | none =>
      have hx : processOffer env groups store o = ⟨none, [], store, false⟩ := by
        simp [processOffer, hpc]
      rw [hx]
      simp
  | some v =>
      cases hsk : seenSkip (some s) store with
      | true =>
          have hx : processOffer env groups store o = ⟨none, [], store, false⟩ := by
            simp [processOffer, hpc, ho, hsk]
          rw [hx]
          simp
      | false =>
          cases hagg : aggFor env (notifFor env groups o v) with
          | true =>
              have hdel : (deliveriesFor env (notifFor env groups o v)).any (fun b => b)
                  = true := by
                rw [deliveries_any, ← aggFor_eq_any, hagg]
              have hx : processOffer env groups store o =
                  ⟨some (notifFor env groups o v), deliveriesFor env (notifFor env groups o v),
                    insert s store, true⟩ := by
                simp [processOffer, hpc, ho, hsk, hagg, hidt, insertId]
              rw [hx]
              simp [hdel]
          | false =>
              have hdel : (deliveriesFor env (notifFor env groups o v)).any (fun b => b)
                  = false := by
                rw [deliveries_any, ← aggFor_eq_any, hagg]
              have hx : processOffer env groups store o =
                  ⟨some (notifFor env groups o v), deliveriesFor env (notifFor env groups o v),
                    store, false⟩ := by
                simp [processOffer, hpc, ho, hsk, hagg]
              rw [hx]
              simp [hdel]

/-- C1 witness: a concrete offer delivered to two recipients of which
only the second succeeds is persisted with its id inserted. -/
theorem C1_witness :
    ((processOffer ⟨["a", "b"], fun c _ => c == "b", [], "30/05/26"⟩ [] ∅
        ⟨some "o1", some "General", some ⟨some (TotalVal.num 15000)⟩⟩).persisted = true
      ↔ (processOffer ⟨["a", "b"], fun c _ => c == "b", [], "30/05/26"⟩ [] ∅
        ⟨some "o1", some "General", some ⟨some (TotalVal.num 15000)⟩⟩).deliveries.any
          (fun b => b) = true) ∧
    ((processOffer ⟨["a", "b"], fun c _ => c == "b", [], "30/05/26"⟩ [] ∅
        ⟨some "o1", some "General", some ⟨some (TotalVal.num 15000)⟩⟩).persisted = true →
      (processOffer ⟨["a", "b"], fun c _ => c == "b", [], "30/05/26"⟩ [] ∅
        ⟨some "o1", some "General", some ⟨some (TotalVal.num 15000)⟩⟩).store = insert "o1" ∅) ∧
    ((processOffer ⟨["a", "b"], fun c _ => c == "b", [], "30/05/26"⟩ [] ∅
        ⟨some "o1", some "General", some ⟨some (TotalVal.num 15000)⟩⟩).persisted = false →
      (processOffer ⟨["a", "b"], fun c _ => c == "b", [], "30/05/26"⟩ [] ∅
        ⟨some "o1", some "General", some ⟨some (TotalVal.num 15000)⟩⟩).store = ∅) :=
  C1_seen_iff_delivered _ _ _ _ "o1" rfl (by decide)

/-- C2: for every offer with a numeric total price, the price stage
admits the offer (handing it on to enrichment and dispatch) if and only
if total / 100 is strictly below MAX_PRICE_THRESHOLD; an offer whose
display price reaches the threshold is never dispatched, leaves the
store unchanged, and is never persisted. -/
theorem C2_price_threshold (env : Env) (groups : List Group) (store : Finset String)
    (o : Offer) (p : PriceInfo) (q : ℚ)
    (hp : o.price = some p) (ht : p.total = some (TotalVal.num q)) :
    (priceCheck o = some (q / 100) ↔ q / 100 < maxPriceThreshold)
      ∧ (seenSkip o.id store = false →
          ((processOffer env groups store o).notified.isSome = true
            ↔ q / 100 < maxPriceThreshold))
      ∧ (¬ q / 100 < maxPriceThreshold →
          processOffer env groups store o = ⟨none, [], store, false⟩) := by
  obtain ⟨oid, odesc, oprice⟩ := o
  obtain rfl : oprice = some p := hp
  obtain ⟨pt⟩ := p
  obtain rfl : pt = some (TotalVal.num q) := ht
  have hpc : priceCheck ⟨oid, odesc, some ⟨some (TotalVal.num q)⟩⟩
      = if q / 100 < maxPriceThreshold then some (q / 100) else none := rfl
  by_cases hlt : q / 100 < maxPriceThreshold
  · refine ⟨by simp [hpc, hlt], fun hsk => ?_, fun hc => absurd hlt hc⟩
    have hpc2 : priceCheck ⟨oid, odesc, some ⟨some (TotalVal.num q)⟩⟩ = some (q / 100) := by
      rw [hpc, if_pos hlt]
    cases hagg : aggFor env (notifFor env groups ⟨oid, odesc, some ⟨some (TotalVal.num q)⟩⟩
        (q / 100)) with
    | true =>
        simp_all [processOffer, hpc2, hsk, hlt]
        by_cases hto : idTruthy oid = true <;> simp [hto]
    | false =>
        simp_all [processOffer, hpc2, hsk, hlt]
  · refine ⟨by simp [hpc, hlt], fun hsk => ?_, fun _ => ?_⟩ <;>
      · have hpc2 : priceCheck ⟨oid, odesc, some ⟨some (TotalVal.num q)⟩⟩ = none := by
          rw [hpc, if_neg hlt]
        simp [processOffer, hpc2, hlt]

/-- C2 witness: the spec's own scenario, an offer with total 40000
(display price 400.00) against threshold 250.00, is rejected as a no-op. -/
theorem C2_witness :
    processOffer ⟨["a"], fun _ _ => true, [], "30/05/26"⟩ [] ∅
        ⟨some "o1", some "General", some ⟨some (TotalVal.num 40000)⟩⟩
      = ⟨none, [], ∅, false⟩ :=
  (C2_price_threshold ⟨["a"], fun _ _ => true, [], "30/05/26"⟩ [] ∅
      ⟨some "o1", some "General", some ⟨some (TotalVal.num 40000)⟩⟩ ⟨some (TotalVal.num 40000)⟩
      40000 rfl rfl).2.2 (by norm_num [maxPriceThreshold])

/-- Concatenating offer lists processes the first part and feeds its
final store into the second part. -/
theorem processOffers_append (env : Env) (groups : List Group) :
    ∀ (l1 l2 : List Offer) (store : Finset String),
      processOffers env groups store (l1 ++ l2)
        = ((processOffers env groups store l1).1
            ++ (processOffers env groups (processOffers env groups store l1).2 l2).1,
           (processOffers env groups (processOffers env groups store l1).2 l2).2)
  | [], l2, store => by simp [processOffers]
  | o :: os, l2, store => by
      simp only [List.cons_append, processOffers, List.append_eq]
      rw [processOffers_append env groups os l2]

/-- C9: an offer whose price field is absent, or whose price dict lacks
a numeric total, is a complete no-op (never notified, never delivered,
store untouched, never persisted), and removing it from the offers array
changes nothing for its siblings: the sibling results and the final
store are identical, the bad offer merely contributing a `none` entry at
its position. -/
theorem C9_bad_price_isolated (env : Env) (groups : List Group) (store : Finset String)
    (o : Offer) (pre post : List Offer)
    (h : o.price = none
        ∨ ∃ p, o.price = some p ∧ (p.total = none ∨ p.total = some TotalVal.nonNum)) :
    processOffer env groups store o = ⟨none, [], store, false⟩
      ∧ processOffers env groups store (pre ++ o :: post)
          = ((processOffers env groups store pre).1
              ++ none :: (processOffers env groups (processOffers env groups store pre).2 post).1,
             (processOffers env groups (processOffers env groups store pre).2 post).2)
      ∧ processOffers env groups store (pre ++ post)
          = ((processOffers env groups store pre).1
              ++ (processOffers env groups (processOffers env groups store pre).2 post).1,
             (processOffers env groups (processOffers env groups store pre).2 post).2) := by
  have hnoop : ∀ st : Finset String, processOffer env groups st o = ⟨none, [], st, false⟩ := by
    intro st
    have hpc : priceCheck o = none := by
      rcases h with hnone | ⟨p, hp, htot⟩
      · simp [priceCheck, hnone]
      · rcases htot with h0 | h0 <;> simp [priceCheck, hp, h0]
    simp [processOffer, hpc]
  refine ⟨hnoop store, ?_, ?_⟩
  · rw [processOffers_append env groups pre (o :: post) store]
    simp only [processOffers, hnoop]
  · rw [processOffers_append env groups pre post store]

/-- C9 witness: a price-less offer placed between two valid offers is a
no-op and leaves the processing of both siblings intact. -/
theorem C9_witness :
    processOffer ⟨["a"], fun _ _ => true, [], "d"⟩ [] ∅ ⟨some "bad", some "G", none⟩
        = ⟨none, [], ∅, false⟩
      ∧ processOffers ⟨["a"], fun _ _ => true, [], "d"⟩ [] ∅
          ([⟨some "o1", some "G", some ⟨some (TotalVal.num 100)⟩⟩]
            ++ ⟨some "bad", some "G", none⟩ :: [⟨some "o2", some "G", some ⟨some (TotalVal.num 200)⟩⟩])
          = ((processOffers ⟨["a"], fun _ _ => true, [], "d"⟩ [] ∅
                [⟨some "o1", some "G", some ⟨some (TotalVal.num 100)⟩⟩]).1
              ++ none :: (processOffers ⟨["a"], fun _ _ => true, [], "d"⟩ []
                  (processOffers ⟨["a"], fun _ _ => true, [], "d"⟩ [] ∅
                    [⟨some "o1", some "G", some ⟨some (TotalVal.num 100)⟩⟩]).2
                  [⟨some "o2", some "G", some ⟨some (TotalVal.num 200)⟩⟩]).1,
             (processOffers ⟨["a"], fun _ _ => true, [], "d"⟩ []
                  (processOffers ⟨["a"], fun _ _ => true, [], "d"⟩ [] ∅
                    [⟨some "o1", some "G", some ⟨some (TotalVal.num 100)⟩⟩]).2
                  [⟨some "o2", some "G", some ⟨some (TotalVal.num 200)⟩⟩]).2)
      ∧ processOffers ⟨["a"], fun _ _ => true, [], "d"⟩ [] ∅
          ([⟨some "o1", some "G", some ⟨some (TotalVal.num 100)⟩⟩]
            ++ [⟨some "o2", some "G", some ⟨some (TotalVal.num 200)⟩⟩])
          = ((processOffers ⟨["a"], fun _ _ => true, [], "d"⟩ [] ∅
                [⟨some "o1", some "G", some ⟨some (TotalVal.num 100)⟩⟩]).1
              ++ (processOffers ⟨["a"], fun _ _ => true, [], "d"⟩ []
                  (processOffers ⟨["a"], fun _ _ => true, [], "d"⟩ [] ∅
                    [⟨some "o1", some "G", some ⟨some (TotalVal.num 100)⟩⟩]).2
                  [⟨some "o2", some "G", some ⟨some (TotalVal.num 200)⟩⟩]).1,
             (processOffers ⟨["a"], fun _ _ => true, [], "d"⟩ []
                  (processOffers ⟨["a"], fun _ _ => true, [], "d"⟩ [] ∅
                    [⟨some "o1", some "G", some ⟨some (TotalVal.num 100)⟩⟩]).2
                  [⟨some "o2", some "G", some ⟨some (TotalVal.num 200)⟩⟩]).2) :=
  C9_bad_price_isolated ⟨["a"], fun _ _ => true, [], "d"⟩ [] ∅ ⟨some "bad", some "G", none⟩
    [⟨some "o1", some "G", some ⟨some (TotalVal.num 100)⟩⟩]
    [⟨some "o2", some "G", some ⟨some (TotalVal.num 200)⟩⟩] (Or.inl rfl)

/-- C10: an offer whose id is missing or falsy but which passes the
price filter skips the seen-store check and is dispatched against every
store (hence on every poll cycle in which it appears), yet the store is
never changed and never persisted for it, whatever the delivery
outcomes. -/
theorem C10_falsy_id_redispatch (env : Env) (groups : List Group) (store : Finset String)
    (o : Offer) (p : PriceInfo) (q : ℚ)
    (hid : idTruthy o.id = false)
    (hp : o.price = some p) (ht : p.total = some (TotalVal.num q))
    (hlt : q / 100 < maxPriceThreshold) :
    (processOffer env groups store o).notified.isSome = true
      ∧ (processOffer env groups store o).store = store
      ∧ (processOffer env groups store o).persisted = false := by
  obtain ⟨oid, odesc, oprice⟩ := o
  obtain rfl : oprice = some p := hp
  obtain ⟨pt⟩ := p
  obtain rfl : pt = some (TotalVal.num q) := ht
  have hpc : priceCheck ⟨oid, odesc, some ⟨some (TotalVal.num q)⟩⟩ = some (q / 100) := by
    simp [priceCheck, hlt]
  have hsk : seenSkip oid store = false := by
    cases oid with
    | none => rfl
    | some s =>
        have hse : s = "" := by simpa [idTruthy] using hid
        simp [seenSkip, hse]
  cases hagg : aggFor env (notifFor env groups ⟨oid, odesc, some ⟨some (TotalVal.num q)⟩⟩
      (q / 100)) <;>
    simp_all [processOffer, hpc, hsk]

/-- C10 witness: an id-less cheap offer is dispatched with all
deliveries succeeding, and still the store stays empty and unpersisted. -/
theorem C10_witness :
    (processOffer ⟨["a"], fun _ _ => true, [], "d"⟩ [] ∅
        ⟨none, some "General", some ⟨some (TotalVal.num 15000)⟩⟩).notified.isSome = true
      ∧ (processOffer ⟨["a"], fun _ _ => true, [], "d"⟩ [] ∅
          ⟨none, some "General", some ⟨some (TotalVal.num 15000)⟩⟩).store = ∅
      ∧ (processOffer ⟨["a"], fun _ _ => true, [], "d"⟩ [] ∅
          ⟨none, some "General", some ⟨some (TotalVal.num 15000)⟩⟩).persisted = false :=
  C10_falsy_id_redispatch ⟨["a"], fun _ _ => true, [], "d"⟩ [] ∅
    ⟨none, some "General", some ⟨some (TotalVal.num 15000)⟩⟩ ⟨some (TotalVal.num 15000)⟩
    15000 rfl rfl rfl (by norm_num [maxPriceThreshold])

/-- Processing one offer can only grow the seen store. -/
theorem processOffer_store_mono (env : Env) (groups : List Group) (store : Finset String)
    (o : Offer) : store ⊆ (processOffer env groups store o).store := by
  unfold processOffer
  split
  · simp
  · split
    · simp
    · dsimp only
      split
      · cases o.id <;> simp [insertId, Finset.subset_insert]
      · simp

/-- Processing a list of offers can only grow the seen store. -/
theorem processOffers_store_mono (env : Env) (groups : List Group) :
    ∀ (l : List Offer) (store : Finset String), store ⊆ (processOffers env groups store l).2
  | [], store => by simp [processOffers]
  | o :: os, store => by
      simp only [processOffers]
      exact (processOffer_store_mono env groups store o).trans
        (processOffers_store_mono env groups os _)

/-- With at least one recipient and every delivery succeeding, the
aggregate announcement flag is true. -/
theorem aggFor_all_true (env : Env) (n : Notification)
    (hd : ∀ c m, env.deliver c m = true) (hc : env.chats ≠ []) : aggFor env n = true := by
  rw [aggFor_eq_any]
  cases hcl : env.chats with
  | nil => exact absurd hcl hc
  | cons c cs => simp [List.any_cons, hd]

/-- First-run bookkeeping: with all deliveries succeeding, every offer
of the list that carries a truthy id and passes the price filter has its
id in the store after the run. -/
theorem processOffers_adds_ids (env : Env) (groups : List Group)
    (hd : ∀ c m, env.deliver c m = true) (hc : env.chats ≠ []) :
    ∀ (l : List Offer) (store : Finset String) (o : Offer), o ∈ l →
      idTruthy o.id = true → priceCheck o ≠ none →
      ∃ s, o.id = some s ∧ s ∈ (processOffers env groups store l).2
  | [], _, o, ho, _, _ => absurd ho (List.not_mem_nil o)
  | a :: l, store, o, ho, hidt, hpc => by
      rcases List.mem_cons.mp ho with rfl | hmem
      · obtain ⟨s, hs⟩ : ∃ s, o.id = some s := by
          cases hoid : o.id with
          | none => rw [hoid] at hidt; exact absurd hidt (by simp [idTruthy])
          | some s => exact ⟨s, rfl⟩
        refine ⟨s, hs, ?_⟩
        simp only [processOffers]
        refine Finset.mem_of_subset (processOffers_store_mono env groups l _) ?_
        cases hpcs : priceCheck o with
        | none => exact absurd hpcs hpc
        | some v =>
            cases hsk : seenSkip o.id store with
            | true =>
                have hins : s ∈ store := by
                  rw [hs] at hsk
                  by_cases hse : s = ""
                  · simp [seenSkip, hse] at hsk
                  · simpa [seenSkip, hse] using hsk
                exact Finset.mem_of_subset (processOffer_store_mono env groups store o) hins
            | false =>
                have hagg : aggFor env (notifFor env groups o v) = true :=
                  aggFor_all_true env _ hd hc
                have hsk2 : seenSkip (some s) store = false := by rw [← hs]; exact hsk
                have hidt2 : idTruthy (some s) = true := by rw [← hs]; exact hidt
                have hst : (processOffer env groups store o).store = insert s store := by
                  simp [processOffer, hpcs, hs, hsk2, hidt2, hagg, insertId]
                rw [hst]
                exact Finset.mem_insert_self s store
      · simp only [processOffers]
        exact processOffers_adds_ids env groups hd hc l
          (processOffer env groups store a).store o hmem hidt hpc

/-- Second-run bookkeeping: when every offer is price-rejected or has
its id already in the store, the run notifies nothing and leaves the
store untouched. -/
theorem processOffers_all_seen (env : Env) (groups : List Group) :
    ∀ (l : List Offer) (store : Finset String),
      (∀ o ∈ l, priceCheck o = none ∨ ∃ s, o.id = some s ∧ s ≠ "" ∧ s ∈ store) →
      processOffers env groups store l = (l.map (fun _ => none), store)
  | [], store, _ => by simp [processOffers]
  | a :: l, store, h => by
      have hnoop : processOffer env groups store a = ⟨none, [], store, false⟩ := by
        rcases h a (List.mem_cons_self a l) with hpc | ⟨s, hs, hne, hmem⟩
        · simp [processOffer, hpc]
        · cases hpc : priceCheck a with
          | none => simp [processOffer, hpc]
          | some v =>
              have hsk : seenSkip a.id store = true := by
                rw [hs]
                simp [seenSkip, hne, hmem]
              simp [processOffer, hpc, hsk]
      simp only [processOffers, hnoop]
      rw [processOffers_all_seen env groups l store (fun o ho => h o (List.mem_cons_of_mem a ho))]
      simp

/-- C3 (amended): replaying the identical non-empty snapshot twice in
succession, with at least one configured recipient, all deliveries
succeeding, and every offer carrying a truthy id, notifies only in the
first run: the second run finds every previously notified id in the
seen store, produces no notification for any offer, and leaves the
store unchanged. -/
theorem C3_replay_idempotent (env : Env) (d : Data) (store : Finset String)
    (offers : List Offer)
    (hoff : d.offers = some offers) (hne : offers ≠ [])
    (hids : ∀ o ∈ offers, idTruthy o.id = true)
    (hd : ∀ c m, env.deliver c m = true) (hc : env.chats ≠ []) :
    (processData env d (processData env d store).2).1 = offers.map (fun _ => none)
      ∧ (processData env d (processData env d store).2).2 = (processData env d store).2 := by
  have hdne : d ≠ emptyResponse := by
    intro hcontra
    rw [hcontra] at hoff
    have : offers = [] := by simpa [emptyResponse] using hoff.symm
    exact hne this
  obtain ⟨o0, os, rfl⟩ : ∃ o0 os, offers = o0 :: os := by
    cases offers with
    | nil => exact absurd rfl hne
    | cons a l => exact ⟨a, l, rfl⟩
  have hpd : ∀ st : Finset String,
      processData env d st = processOffers env (d.groups.getD []) st (o0 :: os) := by
    intro st
    simp [processData, hdne, hoff]
  simp only [hpd]
  have hall : ∀ o ∈ (o0 :: os), priceCheck o = none
      ∨ ∃ s, o.id = some s ∧ s ≠ ""
          ∧ s ∈ (processOffers env (d.groups.getD []) store (o0 :: os)).2 := by
    intro o ho
    by_cases hpc : priceCheck o = none
    · exact Or.inl hpc
    · obtain ⟨s, hs, hmem⟩ := processOffers_adds_ids env (d.groups.getD []) hd hc
        (o0 :: os) store o ho (hids o ho) hpc
      refine Or.inr ⟨s, hs, ?_, hmem⟩
      have hto := hids o ho
      rw [hs] at hto
      simpa [idTruthy] using hto
  rw [processOffers_all_seen env (d.groups.getD []) (o0 :: os) _ hall]
  exact ⟨rfl, rfl⟩

/-- C3 witness: the spec's end-to-end offer replayed twice with one
always-succeeding recipient: the second run notifies nothing and keeps
the store. -/
theorem C3_witness :
    (processData ⟨["c"], fun _ _ => true, [], "30/05/26"⟩
        ⟨some [], some [⟨some "o1", some "General", some ⟨some (TotalVal.num 15000)⟩⟩]⟩
        (processData ⟨["c"], fun _ _ => true, [], "30/05/26"⟩
          ⟨some [], some [⟨some "o1", some "General", some ⟨some (TotalVal.num 15000)⟩⟩]⟩ ∅).2).1
        = List.map (fun _ => (none : Option Notification))
            ([⟨some "o1", some "General", some ⟨some (TotalVal.num 15000)⟩⟩] : List Offer)
      ∧ (processData ⟨["c"], fun _ _ => true, [], "30/05/26"⟩
          ⟨some [], some [⟨some "o1", some "General", some ⟨some (TotalVal.num 15000)⟩⟩]⟩
          (processData ⟨["c"], fun _ _ => true, [], "30/05/26"⟩
            ⟨some [], some [⟨some "o1", some "General", some ⟨some (TotalVal.num 15000)⟩⟩]⟩ ∅).2).2
        = (processData ⟨["c"], fun _ _ => true, [], "30/05/26"⟩
            ⟨some [], some [⟨some "o1", some "General", some ⟨some (TotalVal.num 15000)⟩⟩]⟩ ∅).2 :=
  C3_replay_idempotent ⟨["c"], fun _ _ => true, [], "30/05/26"⟩
    ⟨some [], some [⟨some "o1", some "General", some ⟨some (TotalVal.num 15000)⟩⟩]⟩ ∅
    [⟨some "o1", some "General", some ⟨some (TotalVal.num 15000)⟩⟩]
    rfl (by decide) (by decide) (fun _ _ => rfl) (by decide)

/-- C3 counterexample to the claim as stated: a qualifying offer whose
id field is missing is notified again on the second run of the very same
snapshot (two notifications, not one), because it is never entered into
the seen store. -/
theorem C3_counterexample :
    (processData ⟨["c"], fun _ _ => true, [], "d"⟩
        ⟨some [], some [⟨none, some "General", some ⟨some (TotalVal.num 15000)⟩⟩]⟩ ∅).1.countP
        (fun x => x.isSome) = 1
      ∧ (processData ⟨["c"], fun _ _ => true, [], "d"⟩
          ⟨some [], some [⟨none, some "General", some ⟨some (TotalVal.num 15000)⟩⟩]⟩
          (processData ⟨["c"], fun _ _ => true, [], "d"⟩
            ⟨some [], some [⟨none, some "General", some ⟨some (TotalVal.num 15000)⟩⟩]⟩ ∅).2).1.countP
        (fun x => x.isSome) = 1 := by
  norm_num [processData, processOffers, processOffer, priceCheck, maxPriceThreshold,
    seenSkip, insertId, idTruthy, emptyResponse, notifFor, aggFor, deliveriesFor]

/-- C5: evaluation of the image selector at the failing input: the
description contains "Pista" and the floor image `pista.jpg` is absent
from the image directory, yet instead of selecting no image the selector
falls through to the sector-threshold lookup and picks `200.jpg` for
sector 217 (the code's own comment says the sector check runs only when
no Pista/Gold match applied). -/
theorem C5_pista_fallthrough :
    imageFor ["200.jpg"] "Pista" ["SECTOR: 217"] = some "200.jpg"
      ∧ imageFor ["pista.jpg", "200.jpg"] "Pista" ["SECTOR: 217"] = some "pista.jpg" := by
  constructor <;> decide

/-- The source regex scan equals the drop-to-first-digit description. -/
theorem firstDigitRun_eq_dropWhile (allowed : Char → Bool) :
    ∀ l : List Char,
      firstDigitRun allowed l
        = (match l.dropWhile (fun c => !c.isDigit) with
            | [] => none
            | d :: tl => some (d :: tl.takeWhile allowed))
  | [] => rfl
  | c :: cs => by
      cases h : c.isDigit with
      | true => simp [firstDigitRun, List.dropWhile, h]
      | false => simp [firstDigitRun, List.dropWhile, h, firstDigitRun_eq_dropWhile allowed cs]

/-- The source's sector derivation matches the spec-worded
first-digit-run rule (over word characters and dash). -/
theorem sectorOf_eq_spec (key : String) : sectorOf key = specSectorRun wordDashChar key := by
  unfold sectorOf specSectorRun
  rw [firstDigitRun_eq_dropWhile wordDashChar key.data]
  cases h : key.data.dropWhile (fun c => !c.isDigit) <;> simp

/-- Membership test written with `List.contains` agrees with `∈`. -/
theorem contains_eq_mem (id : String) (l : List String) :
    l.contains id = decide (id ∈ l) := by
  simp [List.contains]

/-- The first-row rendering of a place agrees with the spec wording. -/
theorem rowLines_eq_spec (rv : RowsVal) : rowLines rv = specRowLines rv := by
  cases rv with
  | notDict => rfl
  | rows rl =>
      cases rl with
      | nil => rfl
      | cons rp rl2 =>
          obtain ⟨rk, sv⟩ := rp
          cases sv with
          | notList => rfl
          | seats sl => cases sl <;> rfl

/-- C7 (amended): seat extraction uses the first group in array order
whose `offerIds` contains the offer's id and, inside it, only the first
place entry and the first row entry; the sector is the first run of the
regex `[0-9][0-9A-Za-z_-]*` (word characters, underscore included, and
dash) inside the place key, falling back to the whole key when it has no
digit. -/
theorem C7_seat_extraction (id : String) (groups : List Group) (h : id ≠ "") :
    seatLinesFor (some id) groups = specSeatLines id groups
      ∧ ∀ key : String, sectorOf key = specSectorRun wordDashChar key := by
  refine ⟨?_, sectorOf_eq_spec⟩
  rw [seatLinesFor]
  rw [if_neg h]
  induction groups with
  | nil => rfl
  | cons g gs ih =>
      by_cases hm : id ∈ g.offerIds
      · have hcont : g.offerIds.contains id = true := by
          rw [contains_eq_mem]
          exact decide_eq_true hm
        simp only [seatLinesAux, if_pos hm]
        unfold specSeatLines
        simp only [List.find?, hcont]
        cases hpl : g.places with
        | nil => rfl
        | cons pr rest =>
            obtain ⟨pk, rv⟩ := pr
            show ("SECTOR: " ++ sectorOf pk) :: rowLines rv
                = ("SECTOR: " ++ specSectorRun wordDashChar pk) :: specRowLines rv
            rw [sectorOf_eq_spec pk, rowLines_eq_spec rv]
      · have hcont : g.offerIds.contains id = false := by
          rw [contains_eq_mem]
          exact decide_eq_false hm
        simp only [seatLinesAux, if_neg hm]
        unfold specSeatLines
        simp only [List.find?, hcont]
        exact ih

/-- C7 counterexample to the claim's regex: on the place key "A1_B" the
code extracts the sector "1_B" (Python `\w` accepts the underscore),
while the claim's character class `[0-9][0-9A-Za-z-]*` stops before it
and predicts "1". -/
theorem C7_counterexample :
    sectorOf "A1_B" = "1_B" ∧ claimSector "A1_B" = "1" := by
  constructor <;> decide

/-- C7 witness: on the spec's own example group the extraction equals
the spec-worded one and yields sector 217 from place key "M-217", row 4
and the joined seats; a digit-free key falls back to itself. -/
theorem C7_witness :
    seatLinesFor (some "o1")
        [⟨["o1"], [("M-217", RowsVal.rows [("4", SeatsVal.seats ["12", "13"])])]⟩]
        = specSeatLines "o1"
          [⟨["o1"], [("M-217", RowsVal.rows [("4", SeatsVal.seats ["12", "13"])])]⟩]
      ∧ specSeatLines "o1"
          [⟨["o1"], [("M-217", RowsVal.rows [("4", SeatsVal.seats ["12", "13"])])]⟩]
        = ["SECTOR: 217", "FILA: 4", "ASIENTO: 12, 13"]
      ∧ sectorOf "PLATEA" = specSectorRun wordDashChar "PLATEA"
      ∧ specSectorRun wordDashChar "PLATEA" = "PLATEA" :=
  ⟨(C7_seat_extraction "o1"
      [⟨["o1"], [("M-217", RowsVal.rows [("4", SeatsVal.seats ["12", "13"])])]⟩]
      (by decide)).1,
    by decide,
    (C7_seat_extraction "o1"
      [⟨["o1"], [("M-217", RowsVal.rows [("4", SeatsVal.seats ["12", "13"])])]⟩]
      (by decide)).2 "PLATEA",
    by decide⟩

/-- Pointwise equal partial maps give equal filterMap results. -/
theorem filterMap_congr_mem (l : List String) (f g : String → Option Nat)
    (h : ∀ x ∈ l, f x = g x) : l.filterMap f = l.filterMap g := by
  induction l with
  | nil => rfl
  | cons a as ih =>
      rw [List.filterMap_cons, List.filterMap_cons, h a (List.mem_cons_self a as),
        ih (fun x hx => h x (List.mem_cons_of_mem a hx))]

/-- Filtering the canonical numbers afterwards equals filtering inside
the partial map. -/
theorem claim_ns_eq (files : List String) (n : Nat) :
    (files.filterMap canonicalJpgNum).filter (fun m => m ≤ n)
      = files.filterMap (fun f =>
          match canonicalJpgNum f with
          | some m => if m ≤ n then some m else none
          | none => none) := by
  induction files with
  | nil => rfl
  | cons f fs ih =>
      rw [List.filterMap_cons, List.filterMap_cons]
      cases hcf : canonicalJpgNum f with
      | none => simpa using ih
      | some m =>
          by_cases hm : m ≤ n <;> simp [List.filter_cons, hm, ih]

/-- Folding `Nat.max` returns the start value or a list element. -/
theorem foldl_max_choice :
    ∀ (l : List Nat) (a : Nat), l.foldl Nat.max a = a ∨ l.foldl Nat.max a ∈ l
  | [], _ => Or.inl rfl
  | c :: cs, a => by
      rw [List.foldl_cons]
      rcases foldl_max_choice cs (Nat.max a c) with h | h
      · rcases Nat.le_total a c with h2 | h2
        · have h3 : Nat.max a c = c := Nat.max_eq_right h2
          exact Or.inr (by rw [h, h3]; exact List.mem_cons_self c cs)
        · have h3 : Nat.max a c = a := Nat.max_eq_left h2
          exact Or.inl (by rw [h, h3])
      · exact Or.inr (List.mem_cons_of_mem c h)

/-- The maximum computed by the source over a non-empty candidate list
is one of the candidates. -/
theorem foldl_max_mem (c : Nat) (cs : List Nat) : (c :: cs).foldl Nat.max 0 ∈ c :: cs := by
  have h0 : Nat.max 0 c = c := Nat.max_eq_right (Nat.zero_le c)
  rw [List.foldl_cons, h0]
  rcases foldl_max_choice cs c with h | h
  · rw [h]
    exact List.mem_cons_self c cs
  · exact List.mem_cons_of_mem c h

/-- A canonical number comes from the file of exactly that name. -/
theorem canonicalJpgNum_name (f : String) (m : Nat) (h : canonicalJpgNum f = some m) :
    f = toString m ++ ".jpg" := by
  unfold canonicalJpgNum at h
  by_cases hcond : String.mk (dropLastN f.data 4) ++ ".jpg" = f ∧ dropLastN f.data 4 ≠ []
      ∧ (dropLastN f.data 4).all Char.isDigit = true
      ∧ String.mk (dropLastN f.data 4) = toString (parseDigits (dropLastN f.data 4))
  · rw [if_pos hcond] at h
    obtain ⟨h1, _, _, h4⟩ := hcond
    obtain rfl : parseDigits (dropLastN f.data 4) = m := Option.some.inj h
    calc f = String.mk (dropLastN f.data 4) ++ ".jpg" := h1.symm
      _ = toString (parseDigits (dropLastN f.data 4)) ++ ".jpg" := by rw [h4]
  · rw [if_neg hcond] at h
    cases h

/-- Under canonical naming of every digit-stem jpg file, the source's
sector-threshold lookup coincides with the claim-worded selection. -/
theorem sectorImage_eq_claim (files : List String) (n : Nat)
    (hcanon : ∀ f ∈ files, digitJpgStem f = canonicalJpgNum f) :
    sectorImage files n = claimSectorSelect files n := by
  unfold sectorImage claimSectorSelect
  have h1 : files.filterMap (fun f =>
        match digitJpgStem f with
        | some m => if m ≤ n then some m else none
        | none => none)
      = files.filterMap (fun f =>
          match canonicalJpgNum f with
          | some m => if m ≤ n then some m else none
          | none => none) :=
    filterMap_congr_mem files _ _ (fun x hx => by rw [hcanon x hx])
  rw [h1, ← claim_ns_eq files n]
  cases hns : (files.filterMap canonicalJpgNum).filter (fun m => m ≤ n) with
  | nil => rfl
  | cons c cs =>
      have hbest : (c :: cs).foldl Nat.max 0 ∈ c :: cs := foldl_max_mem c cs
      have hbest2 : (c :: cs).foldl Nat.max 0
          ∈ (files.filterMap canonicalJpgNum).filter (fun m => m ≤ n) := by
        rw [hns]
        exact hbest
      have hmem2 : (c :: cs).foldl Nat.max 0 ∈ files.filterMap canonicalJpgNum :=
        List.mem_of_mem_filter hbest2
      obtain ⟨f, hf, hcf⟩ := List.mem_filterMap.mp hmem2
      have hname : f = toString ((c :: cs).foldl Nat.max 0) ++ ".jpg" :=
        canonicalJpgNum_name f _ hcf
      dsimp only
      rw [if_pos (hname ▸ hf)]

/-- C6 counterexample to the claim as stated: with the directory
containing `007.jpg` and `5.jpg` and sector value 10, the claim-worded
rule selects `5.jpg` (the only canonically named qualifying file), but
the code takes the stem value 7 of `007.jpg` as the maximum, looks for
`7.jpg`, finds no such file, and selects no image. -/
theorem C6_counterexample :
    imageFor ["007.jpg", "5.jpg"] "General" ["SECTOR: 10"] = none
      ∧ claimSectorSelect ["007.jpg", "5.jpg"] 10 = some "5.jpg" := by
  constructor <;> decide

/-- C6 (amended): when no floor/premium description match applies and a
numeric sector value was recovered, and every `.jpg` file with an
all-digit stem in the directory is canonically named (decimal value with
no leading zeros, extension exactly `.jpg`), the selector considers
exactly the files named `<integer>.jpg` whose integer is at most the
sector value and picks the one with the largest integer, selecting no
image when none qualify. -/
theorem C6_sector_image_selection (files : List String) (desc : String)
    (lines : List String) (n : Nat)
    (hcanon : ∀ f ∈ files, digitJpgStem f = canonicalJpgNum f)
    (hp : containsSub "pista" (lowerStr desc) = false)
    (hf : containsSub "floor" (lowerStr desc) = false)
    (hg : containsSub "gold" (lowerStr desc) = false)
    (hgn : containsSub "golden" (lowerStr desc) = false)
    (hsec : extractSectorNum lines = some n) :
    imageFor files desc lines = claimSectorSelect files n := by
  have hne : lines.isEmpty = false := by
    cases lines with
    | nil => cases hsec
    | cons a l => rfl
  simp only [imageFor, hp, hf, hg, hgn, Bool.or_self, Bool.false_eq_true, if_false, hne, hsec]
  exact sectorImage_eq_claim files n hcanon

/-- C6 witness: the spec's own scenario, sector images 100/200/300 with
sector value 250 select `200.jpg`, and with sector value 50 select
nothing. -/
theorem C6_witness :
    imageFor ["100.jpg", "200.jpg", "300.jpg"] "General" ["SECTOR: 250"]
        = claimSectorSelect ["100.jpg", "200.jpg", "300.jpg"] 250
      ∧ claimSectorSelect ["100.jpg", "200.jpg", "300.jpg"] 250 = some "200.jpg"
      ∧ imageFor ["100.jpg", "200.jpg", "300.jpg"] "General" ["SECTOR: 50"]
        = claimSectorSelect ["100.jpg", "200.jpg", "300.jpg"] 50
      ∧ claimSectorSelect ["100.jpg", "200.jpg", "300.jpg"] 50 = none :=
  ⟨C6_sector_image_selection ["100.jpg", "200.jpg", "300.jpg"] "General" ["SECTOR: 250"] 250
      (by decide) (by decide) (by decide) (by decide) (by decide) (by decide),
    by decide,
    C6_sector_image_selection ["100.jpg", "200.jpg", "300.jpg"] "General" ["SECTOR: 50"] 50
      (by decide) (by decide) (by decide) (by decide) (by decide) (by decide),
    by decide⟩

end Fan2Fan
